import Mathlib

/-
Formal model of the NtexFileShare static file server (src/src/main.rs).

The program configures an HTTP server that serves a directory subtree:
it parses arguments (file_dir, url_path, log_level, port, worker),
creates the root directory when absent, and mounts an ntex-files
service built as
  Files::new(&url_path, &file_dir).show_files_listing().disable_content_disposition()
wrapped in the default Logger middleware.

The path-resolution, listing and streaming behaviour itself lives in the
ntex-files dependency, whose sources are not part of this repository;
those parts are modelled from the specification (section 4 of spec.md)
and are marked as such in their doc comments.  Everything translated
directly from src/src/main.rs keeps the names of the source.

Filesystems are modelled as finite trees with directories, regular
files (byte lists), symbolic links and one catch-all kind for other
filesystem objects (devices, sockets, fifos).  Paths are lists of
name segments.
-/

/-- One node of the modelled filesystem tree. -/
inductive FsNode where
  | file (content : List Nat)
  | dir (children : List (String × FsNode))
  | symlink (target : List String) (isAbs : Bool)
  | special

/-- Look a name up in a directory's child list (first match wins). -/
def childLookup : List (String × FsNode) → String → Option FsNode
  | [], _ => none
  | kv :: rest, k => if kv.fst = k then some kv.snd else childLookup rest k

/-- Walk a path of segments down the tree without resolving symlinks.
Returns the node reached, or none when a segment is missing or an
intermediate node is not a directory. -/
def lookupPath : List String → FsNode → Option FsNode
  | [], n => some n
  | s :: rest, FsNode.dir cs =>
    match childLookup cs s with
    | some c => lookupPath rest c
    | none => none
  | _ :: _, _ => none

/-- Outcome of canonicalisation: the canonical segment list, a
missing-path failure, or an IO-style failure (symlink loop). -/
inductive CanonResult where
  | ok (p : List String)
  | notFound
  | ioError
deriving DecidableEq

/-- Modelled from the spec (section 4.1): canonicalise a path against the
filesystem tree, resolving dot segments, dot-dot segments and symbolic
links, with fuel bounding symlink expansion.  The first list accumulates
the canonical result, the second is the remaining work list. -/
def canon (fs : FsNode) : Nat → List String → List String → CanonResult
  | _, done, [] => CanonResult.ok done
  | 0, _, _ :: _ => CanonResult.ioError
  | fuel + 1, done, seg :: rest =>
    if seg = "." ∨ seg = "" then canon fs fuel done rest
    else if seg = ".." then canon fs fuel done.dropLast rest
    else
      match lookupPath (done ++ [seg]) fs with
      | none => CanonResult.notFound
      | some (FsNode.symlink tgt isAbs) =>
        if isAbs then canon fs fuel [] (tgt ++ rest)
        else canon fs fuel done (tgt ++ rest)
      | some _ => canon fs fuel (done ++ [seg]) rest

/-- Symlink-expansion fuel used by the resolver; any bound large enough
for real symlink chains works, the containment theorems hold for all of
them. -/
def canonFuel : Nat := 64

/-- Value of one hexadecimal digit character. -/
def hexDigit (c : Char) : Option Nat :=
  if '0' ≤ c ∧ c ≤ '9' then some (c.toNat - '0'.toNat)
  else if 'a' ≤ c ∧ c ≤ 'f' then some (c.toNat - 'a'.toNat + 10)
  else if 'A' ≤ c ∧ c ≤ 'F' then some (c.toNat - 'A'.toNat + 10)
  else none

/-- Percent-decoding of a character list; a percent sign must be
followed by two hexadecimal digits, otherwise decoding fails. -/
def percentDecodeAux : List Char → Option (List Char)
  | [] => some []
  | '%' :: a :: b :: rest =>
    match hexDigit a, hexDigit b with
    | some hi, some lo =>
      (percentDecodeAux rest).map (fun cs => Char.ofNat (16 * hi + lo) :: cs)
    | _, _ => none
  | '%' :: _ => none
  | c :: rest => (percentDecodeAux rest).map (fun cs => c :: cs)

/-- Modelled from the spec (section 4.1): percent-decode a request path;
malformed encodings fail. -/
def percentDecode (s : String) : Option String :=
  (percentDecodeAux s.data).map String.mk

/-- Split a character list at slash characters. -/
def splitAux : List Char → List Char → List String
  | [], acc => [String.mk acc.reverse]
  | '/' :: rest, acc => String.mk acc.reverse :: splitAux rest []
  | c :: rest, acc => splitAux rest (c :: acc)

/-- Segments of a slash-separated path string, empty segments dropped. -/
def segsOf (s : String) : List String :=
  (splitAux s.data []).filter (fun t => t ≠ "")

/-- The outcome of resolving one request path. -/
inductive ResolvedTarget where
  | Directory (p : List String)
  | File (p : List String)
  | NotFound
  | Forbidden
deriving DecidableEq

/-- Modelled from the spec (section 4.1), the resolution logic living in
the ntex-files dependency outside this repository: percent-decode the
stripped request path (failure is Forbidden), reject any dot-dot segment
as Forbidden, join onto the root, canonicalise both the root and the
joined path, require the canonical root to be a prefix of the canonical
result (otherwise Forbidden), then classify the object found: directory,
regular file, missing (NotFound), anything else Forbidden. -/
def resolve (fs : FsNode) (root : List String) (req : String) : ResolvedTarget :=
  match percentDecode req with
  | none => ResolvedTarget.Forbidden
  | some d =>
    if ".." ∈ segsOf d then ResolvedTarget.Forbidden
    else
      match canon fs canonFuel [] root with
      | CanonResult.ok cr =>
        match canon fs canonFuel [] (root ++ segsOf d) with
        | CanonResult.ok cp =>
          if cr.isPrefixOf cp then
            match lookupPath cp fs with
            | some (FsNode.dir _) => ResolvedTarget.Directory cp
            | some (FsNode.file _) => ResolvedTarget.File cp
            | _ => ResolvedTarget.Forbidden
          else ResolvedTarget.Forbidden
        | CanonResult.notFound => ResolvedTarget.NotFound
        | CanonResult.ioError => ResolvedTarget.Forbidden
      | _ => ResolvedTarget.Forbidden

/-- Kind of one listing entry. -/
inductive EntryKind where
  | file
  | directory
deriving DecidableEq

/-- One directory child as shown in a listing: name, kind and, for
files, size in bytes. -/
structure Entry where
  name : String
  kind : EntryKind
  size : Option Nat
deriving DecidableEq

/-- Modelled from the spec (section 4.2): classify one child of a
resolved directory.  Symlinked children are resolved for kind
classification while the shown name stays the link name; children that
are neither files nor directories after resolution produce no entry. -/
def classify (fs : FsNode) (dirPath : List String) (child : String × FsNode) : Option Entry :=
  match canon fs canonFuel [] (dirPath ++ [child.fst]) with
  | CanonResult.ok q =>
    match lookupPath q fs with
    | some (FsNode.file bs) => some ⟨child.fst, EntryKind.file, some bs.length⟩
    | some (FsNode.dir _) => some ⟨child.fst, EntryKind.directory, none⟩
    | _ => none
  | _ => none

/-- Lexicographic comparison of character lists by character code,
hence case-sensitive. -/
def charListLe : List Char → List Char → Bool
  | [], _ => true
  | _ :: _, [] => false
  | a :: as, b :: bs => if a < b then true else if b < a then false else charListLe as bs

/-- The lexicographic comparison is total. -/
theorem charListLe_total : ∀ a b : List Char, charListLe a b = true ∨ charListLe b a = true
  | [], _ => Or.inl rfl
  | _ :: _, [] => Or.inr rfl
  | a :: as, b :: bs => by
    by_cases hab : a < b
    · exact Or.inl (by simp [charListLe, hab])
    · by_cases hba : b < a
      · exact Or.inr (by simp [charListLe, hba])
      · rcases charListLe_total as bs with h | h
        · exact Or.inl (by simp [charListLe, hab, hba, h])
        · exact Or.inr (by simp [charListLe, hab, hba, h])

/-- The lexicographic comparison is transitive. -/
theorem charListLe_trans :
    ∀ a b c : List Char,
      charListLe a b = true → charListLe b c = true → charListLe a c = true
  | [], _, _, _, _ => rfl
  | _ :: _, [], _, hab, _ => by simp [charListLe] at hab
  | _ :: _, _ :: _, [], _, hbc => by simp [charListLe] at hbc
  | a :: as, b :: bs, c :: cs, hab, hbc => by
    simp only [charListLe] at hab hbc ⊢
    by_cases h1 : a < b
    · by_cases h2 : b < c
      · simp [lt_trans h1 h2]
      · by_cases h3 : c < b
        · simp [h2, h3] at hbc
        · have hbc2 : b = c := le_antisymm (not_lt.mp h3) (not_lt.mp h2)
          subst hbc2
          simp [h1]
    · by_cases h4 : b < a
      · simp [h1, h4] at hab
      · have hab2 : a = b := le_antisymm (not_lt.mp h4) (not_lt.mp h1)
        subst hab2
        by_cases h2 : a < c
        · simp [h2]
        · by_cases h3 : c < a
          · simp [h2, h3] at hbc
          · simp only [if_neg h1, if_neg h4] at hab
            simp only [if_neg h2, if_neg h3] at hbc ⊢
            exact charListLe_trans as bs cs hab hbc

/-- Name order on listing entries: lexicographic by name,
case-sensitive. -/
def entryLe (a b : Entry) : Prop := charListLe a.name.data b.name.data = true

instance entryLeDecidable : DecidableRel entryLe :=
  fun a b => inferInstanceAs (Decidable (charListLe a.name.data b.name.data = true))

instance entryLeTotal : IsTotal Entry entryLe :=
  ⟨fun a b => charListLe_total a.name.data b.name.data⟩

instance entryLeTrans : IsTrans Entry entryLe :=
  ⟨fun _ _ _ hab hbc => charListLe_trans _ _ _ hab hbc⟩

/-- Modelled from the spec (section 4.2): the listing of a resolved
directory enumerates its immediate children, classifies each one, and
sorts the entries by name, lexicographically and case-sensitively. -/
def list (fs : FsNode) (p : List String) : List Entry :=
  match lookupPath p fs with
  | some (FsNode.dir cs) => List.insertionSort entryLe (cs.filterMap (classify fs p))
  | _ => []

/-- Extension of a file name: the part after the last dot, empty when
there is no dot. -/
def extAux : List Char → List Char → List Char
  | [], acc => acc
  | '.' :: rest, _ => extAux rest rest
  | _ :: rest, acc => extAux rest acc

/-- Modelled from the spec (section 4.3): content type by file
extension via a standard mapping, generic binary fallback. -/
def mimeOf (name : String) : String :=
  match String.mk (extAux name.data []) with
  | "html" => "text/html"
  | "htm" => "text/html"
  | "txt" => "text/plain"
  | "png" => "image/png"
  | "jpg" => "image/jpeg"
  | "pdf" => "application/pdf"
  | _ => "application/octet-stream"

/-- Bytes of a rendered string body. -/
def strToBytes (s : String) : List Nat := s.data.map Char.toNat

/-- An HTTP response: status, header list and body bytes. -/
structure Response where
  status : Nat
  headers : List (String × String)
  body : List Nat
deriving DecidableEq

/-- The configuration of the ntex-files service, as assembled by the
builder calls in main (src/src/main.rs lines 100-102): mount path, served
directory, whether directory listings are shown, and whether the
Content-Disposition header is emitted at all. -/
structure FilesConfig where
  mount_path : String
  directory : String
  show_index : Bool
  content_disposition : Bool
deriving DecidableEq

/-- Files::new(mount_path, dir): listings off, Content-Disposition
header on by default (ntex-files defaults). -/
def Files.new (mount dirPath : String) : FilesConfig :=
  ⟨mount, dirPath, false, true⟩

/-- Files::show_files_listing(): enable directory listings. -/
def FilesConfig.show_files_listing (c : FilesConfig) : FilesConfig :=
  { c with show_index := true }

/-- Files::disable_content_disposition(): stop emitting the
Content-Disposition header on file responses. -/
def FilesConfig.disable_content_disposition (c : FilesConfig) : FilesConfig :=
  { c with content_disposition := false }

/-- The parsed command-line arguments of main (src/src/main.rs lines 7-24). -/
structure Args where
  file_dir : String
  url_path : String
  log_level : String
  port : Nat
  worker : Nat
deriving DecidableEq

/-- The service main mounts (src/src/main.rs lines 99-103):
Files::new(&url_path, &file_dir).show_files_listing().disable_content_disposition(). -/
def appService (a : Args) : FilesConfig :=
  ((Files.new a.url_path a.file_dir).show_files_listing).disable_content_disposition

/-- Strip the configured mount path from the request URL; none when the
URL is not under the mount. -/
def stripMount (mount url : String) : Option String :=
  if mount.data.isPrefixOf url.data then some (String.mk (url.data.drop mount.data.length))
  else none

/-- Response headers of a served file: content type by extension, plus
the attachment Content-Disposition header exactly when the service still
has that header enabled (it is disabled by main's builder chain). -/
def fileHeaders (c : FilesConfig) (name : String) : List (String × String) :=
  ("content-type", mimeOf name) ::
    (if c.content_disposition then [("content-disposition", "attachment")] else [])

/-- Last segment of a path, empty for the root. -/
def lastName (p : List String) : String := (p.getLast?).getD ""

/-- Modelled from the spec (section 4.2): render one listing entry as a
hyperlink line with the name, a trailing slash for directories, and the
size for files. -/
def renderEntry (base : String) (e : Entry) : String :=
  "<a href=" ++ base ++ "/" ++ e.name ++
    (match e.kind with | EntryKind.directory => "/" | EntryKind.file => "") ++
    ">" ++ e.name ++ "</a>" ++
    (match e.size with | some n => " " ++ Nat.repr n | none => "")

/-- Join path segments with slashes. -/
def joinSegs (p : List String) : String :=
  p.foldl (fun acc s => acc ++ "/" ++ s) ""

/-- Modelled from the spec (section 4.2): render the listing body. -/
def renderListing (mount : String) (p : List String) (es : List Entry) : String :=
  "<html><body>" ++ String.join (es.map (renderEntry (mount ++ joinSegs p))) ++ "</body></html>"

/-- The fixed 404 response. -/
def resp404 : Response := ⟨404, [], []⟩

/-- The fixed 403 response; a constant, so it reveals nothing about the
target of a rejected path. -/
def resp403 : Response := ⟨403, [], []⟩

/-- The fixed 500 response for the accepted check-then-use race
(spec section 7); unreachable when the filesystem does not change
between resolution and the read. -/
def resp500 : Response := ⟨500, [], []⟩

/-- Modelled from the spec (section 4.4), dispatching for the service
main mounts: requests outside the mount are not handled by this
subsystem (none); under the mount, the stripped path is resolved and the
response is a 200 listing for a directory (listings are enabled by the
builder chain), a 200 with the file bytes for a regular file, 404 for a
missing path and 403 for a forbidden one. -/
def handle (fs : FsNode) (c : FilesConfig) (url : String) : Option Response :=
  match stripMount c.mount_path url with
  | none => none
  | some rel =>
    match resolve fs (segsOf c.directory) rel with
    | ResolvedTarget.Directory p =>
      if c.show_index then
        some ⟨200, [("content-type", "text/html")],
          strToBytes (renderListing c.mount_path p (list fs p))⟩
      else some resp404
    | ResolvedTarget.File p =>
      match lookupPath p fs with
      | some (FsNode.file bs) => some ⟨200, fileHeaders c (lastName p), bs⟩
      | _ => some resp500
    | ResolvedTarget.NotFound => some resp404
    | ResolvedTarget.Forbidden => some resp403

/-- Middleware installed on the app; main installs the default request
Logger (src/src/main.rs line 98). -/
inductive Middleware where
  | logger
deriving DecidableEq

/-- The app main builds (src/src/main.rs lines 96-104): the Logger
middleware wrapped around the files service. -/
structure App where
  middlewares : List Middleware
  files : FilesConfig
deriving DecidableEq

/-- App::new().wrap(Logger::default()).service(Files...): the app value
built inside the HttpServer closure of main. -/
def app (a : Args) : App :=
  ⟨[Middleware.logger], appService a⟩

/-- The access-log record the default Logger middleware writes for one
request. -/
def accessLog (url : String) : String :=
  "GET " ++ url

/-- Log lines emitted while handling one request: one access-log record
per installed Logger middleware. -/
def requestLogLines (ap : App) (url : String) : List String :=
  ap.middlewares.filterMap (fun m => match m with | Middleware.logger => some (accessLog url))

/-- print_args (src/src/main.rs lines 35-42): the lines printed to the
console at startup. -/
def print_args (a : Args) : List String :=
  ["运行参数:",
   "  文件目录: " ++ a.file_dir,
   "  URL路径: " ++ a.url_path,
   "  日志级别: " ++ a.log_level,
   "  端口: " ++ Nat.repr a.port,
   "  工作线程数: " ++ Nat.repr a.worker]

/-- default_worker_count (src/src/main.rs lines 27-32): the available
hardware parallelism when the query succeeds (a NonZeroUsize, hence
positive), and 1 when it fails. -/
def default_worker_count (avail : Option Nat) : Nat :=
  match avail with
  | some n => n
  | none => 1

/-- The worker count main passes to HttpServer::workers (src/src/main.rs
lines 22-23 and 105): the supplied value when the worker flag is given,
otherwise clap's default_value_t, which is default_worker_count(). -/
def workerSetting (supplied : Option Nat) (avail : Option Nat) : Nat :=
  match supplied with
  | some w => w
  | none => default_worker_count avail

/-- Replace the child bound to a key in a child list. -/
def childUpdate (cs : List (String × FsNode)) (k : String) (v : FsNode) : List (String × FsNode) :=
  cs.map (fun kv => if kv.fst = k then (k, v) else kv)

/-- Shape agreement between filesystem nodes: equal, except that
directory child lists may differ.  Directory creation only ever inserts
fresh children, so every pre-existing node keeps its shape. -/
def shapeEq : FsNode → FsNode → Prop
  | FsNode.file bs, FsNode.file bs2 => bs = bs2
  | FsNode.dir _, FsNode.dir _ => True
  | FsNode.symlink tgt isAbs, FsNode.symlink tgt2 isAbs2 => tgt = tgt2 ∧ isAbs = isAbs2
  | FsNode.special, FsNode.special => True
  | _, _ => False

/-- Append a fresh empty directory named name to the child list of the
directory at path d. -/
def insertEmptyDir : List String → String → FsNode → Option FsNode
  | [], name, FsNode.dir cs => some (FsNode.dir (cs ++ [(name, FsNode.dir [])]))
  | [], _, _ => none
  | s :: rest, name, FsNode.dir cs =>
    match childLookup cs s with
    | some c => (insertEmptyDir rest name c).map (fun c2 => FsNode.dir (childUpdate cs s c2))
    | none => none
  | _ :: _, _, _ => none

/-- Whether a symlink met during directory creation resolves, through
the tree, to an existing directory: mkdir reports EEXIST on the link
name and create_dir_all then continues only when is_dir, which follows
the link, is true. -/
def linkTargetIsDir (fs : FsNode) (fuel : Nat) (done tgt : List String) (isAbs : Bool) : Bool :=
  match canon fs fuel (if isAbs then [] else done) tgt with
  | CanonResult.ok q =>
    match lookupPath q fs with
    | some (FsNode.dir _) => true
    | _ => false
  | _ => false

/-- std::fs::create_dir_all as called by main (src/src/main.rs line 80):
walk the path left to right with the same step structure as
canonicalisation.  A missing component is created as a fresh empty
directory; an existing directory is entered; a symlink is followed when
it resolves to an existing directory and is an error otherwise (mkdir
gives EEXIST on the link name and is_dir is false, e.g. for a dangling
link); an existing non-directory is an error.  none models the error
and main's ensuing panic. -/
def create_dir_all : Nat → List String → List String → FsNode → Option FsNode
  | _, _, [], fs => some fs
  | 0, _, _ :: _, _ => none
  | fuel + 1, done, seg :: rest, fs =>
    if seg = "." ∨ seg = "" then create_dir_all fuel done rest fs
    else if seg = ".." then create_dir_all fuel done.dropLast rest fs
    else
      match lookupPath (done ++ [seg]) fs with
      | none =>
        match insertEmptyDir done seg fs with
        | some fsI => create_dir_all fuel (done ++ [seg]) rest fsI
        | none => none
      | some (FsNode.symlink tgt isAbs) =>
        if linkTargetIsDir fs fuel done tgt isAbs then
          if isAbs then create_dir_all fuel [] (tgt ++ rest) fs
          else create_dir_all fuel done (tgt ++ rest) fs
        else none
      | some (FsNode.dir _) => create_dir_all fuel (done ++ [seg]) rest fs
      | some _ => none

/-- Path::exists() as used by main (src/src/main.rs line 78): it calls
fs::metadata, which follows symlinks, so it is true exactly when the
path canonicalises to an existing object; a dangling symlink does not
count as existing. -/
def path_exists (fs : FsNode) (p : List String) : Bool :=
  match canon fs canonFuel [] p with
  | CanonResult.ok _ => true
  | _ => false

/-- Whether an optional node is a directory. -/
def isDirNode : Option FsNode → Bool
  | some (FsNode.dir _) => true
  | _ => false

/-- Path::is_dir() semantics: the path canonicalises, through symlinks,
to an existing directory. -/
def dir_exists (fs : FsNode) (p : List String) : Bool :=
  match canon fs canonFuel [] p with
  | CanonResult.ok q => isDirNode (lookupPath q fs)
  | _ => false

/-- The startup block of main (src/src/main.rs lines 77-83): when
Path::exists(), which follows symlinks, is false for the configured
directory, create_dir_all runs and none models its failure and main's
ensuing panic; when the path resolves to any existing object, nothing
is done. -/
def startup (fs : FsNode) (p : List String) : Option FsNode :=
  if path_exists fs p then some fs else create_dir_all canonFuel [] p fs

/-- A path as seen by get_absolute_path: absolute or relative, plus
segments. -/
structure RPath where
  isAbsolute : Bool
  segments : List String
deriving DecidableEq

/-- Path::join for the one case main exercises: joining a path onto a
base keeps the base when the joined path is relative and replaces the
base when it is absolute. -/
def RPath.join (b p : RPath) : RPath :=
  if p.isAbsolute then p else ⟨b.isAbsolute, b.segments ++ p.segments⟩

/-- get_absolute_path (src/src/main.rs lines 50-66): absolute inputs are
returned unchanged; relative inputs are joined onto the current
directory when it can be obtained, and returned unchanged otherwise. -/
def get_absolute_path (cwd : Option RPath) (p : RPath) : RPath :=
  if p.isAbsolute then p
  else
    match cwd with
    | some c => c.join p
    | none => p

/-- A concrete filesystem: the served root directory files with a 5-byte
file a.txt (content hello) and an empty subdirectory sub, next to a
secret file outside the root. -/
def exFs : FsNode :=
  FsNode.dir
    [("files", FsNode.dir
        [("a.txt", FsNode.file [104, 101, 108, 108, 111]),
         ("sub", FsNode.dir [])]),
     ("secret", FsNode.file [42])]

/-- Concrete arguments with the defaults of the argument parser. -/
def argsEx : Args :=
  ⟨"files", "/download/files", "info", 8080, 4⟩

/-- C10: get_absolute_path is the identity on absolute inputs, hence
idempotent (the current directory, when obtainable, is itself absolute),
and maps a relative input to the current directory joined with it when
the current directory is obtainable, falling back to the unchanged
relative input otherwise. -/
theorem get_absolute_path_spec (cwd : Option RPath) (p : RPath)
    (hcwd : ∀ c, cwd = some c → c.isAbsolute = true) :
    (p.isAbsolute = true → get_absolute_path cwd p = p) ∧
    get_absolute_path cwd (get_absolute_path cwd p) = get_absolute_path cwd p ∧
    (p.isAbsolute = false → ∀ c, cwd = some c → get_absolute_path cwd p = c.join p) ∧
    (p.isAbsolute = false → cwd = none → get_absolute_path cwd p = p) := by
  refine ⟨?_, ?_, ?_, ?_⟩
  · intro hp
    simp [get_absolute_path, hp]
  · by_cases hp : p.isAbsolute = true
    · simp [get_absolute_path, hp]
    · cases cwd with
      | none => simp [get_absolute_path, hp]
      | some c =>
        have hc := hcwd c rfl
        simp [get_absolute_path, hp, RPath.join, hc]
  · intro hp c hc
    subst hc
    simp [get_absolute_path, hp]
  · intro hp hn
    subst hn
    simp [get_absolute_path, hp]

/-- Witness for C10 at concrete paths. -/
theorem get_absolute_path_witness :
    get_absolute_path (some ⟨true, ["home"]⟩) ⟨false, ["files"]⟩ =
      RPath.join ⟨true, ["home"]⟩ ⟨false, ["files"]⟩ :=
  (get_absolute_path_spec (some ⟨true, ["home"]⟩) ⟨false, ["files"]⟩
    (fun c hc => by cases hc; rfl)).2.2.1 rfl ⟨true, ["home"]⟩ rfl

/-- C7: with no worker flag supplied the pool size is
default_worker_count, which equals the available hardware parallelism
when the query succeeds, is 1 when it fails, and is at least 1 in every
case. -/
theorem default_worker_count_spec (supplied avail : Option Nat)
    (hpos : ∀ n, avail = some n → 1 ≤ n) :
    (supplied = none → workerSetting supplied avail = default_worker_count avail) ∧
    (∀ n, avail = some n → default_worker_count avail = n) ∧
    (avail = none → default_worker_count avail = 1) ∧
    1 ≤ default_worker_count avail := by
  refine ⟨?_, ?_, ?_, ?_⟩
  · intro h
    subst h
    rfl
  · intro n h
    subst h
    rfl
  · intro h
    subst h
    rfl
  · cases avail with
    | none => exact le_refl 1
    | some n => exact hpos n rfl

/-- Witness for C7 at a concrete parallelism of 8. -/
theorem default_worker_count_witness :
    workerSetting none (some 8) = default_worker_count (some 8) ∧
    1 ≤ default_worker_count (some 8) := by
  have h := default_worker_count_spec none (some 8) (fun n hn => by cases hn; decide)
  exact ⟨h.1 rfl, h.2.2.2⟩

/-- C9: the handler is deterministic in the filesystem state and the
request: the same request against an unchanged filesystem yields a
byte-identical response, as the handler is a pure function of both. -/
theorem handle_deterministic (c : FilesConfig) (fs fs2 : FsNode) (url : String)
    (hfs : fs = fs2) : handle fs c url = handle fs2 c url := by
  rw [hfs]

/-- Witness for C9 at a concrete repeated request. -/
theorem handle_deterministic_witness :
    handle exFs (appService argsEx) "/download/files/a.txt" =
      handle exFs (appService argsEx) "/download/files/a.txt" :=
  handle_deterministic (appService argsEx) exFs exFs "/download/files/a.txt" rfl

/-- C1 counterexample: the concrete app built by main serves the text
file with a 200 whose only header is the content type; no
Content-Disposition header is present, because main calls
disable_content_disposition on the service. -/
theorem content_disposition_missing_cex :
    handle exFs (appService argsEx) "/download/files/a.txt" =
      some ⟨200, [("content-type", "text/plain")], [104, 101, 108, 108, 111]⟩ := by
  rfl

/-- C1 amended: because main builds the service with
disable_content_disposition, no response of the app carries a
Content-Disposition header at all: files are served without any
forced-download disposition, whatever their content type. -/
theorem no_content_disposition_header (a : Args) (fs : FsNode) (url : String) (r : Response)
    (h : handle fs (appService a) url = some r) :
    ∀ hv ∈ r.headers, hv.fst ≠ "content-disposition" := by
  unfold handle at h
  split at h
  · cases h
  · split at h
    · split at h
      · obtain rfl := Option.some.inj h
        intro hv hmem
        simp only [List.mem_singleton] at hmem
        subst hmem
        decide
      · obtain rfl := Option.some.inj h
        intro hv hmem
        simp [resp404] at hmem
    · rename_i p heq
      split at h
      · obtain rfl := Option.some.inj h
        intro hv hmem
        have hv2 : hv = ("content-type", mimeOf (lastName p)) := by
          simpa [fileHeaders, show (appService a).content_disposition = false from rfl]
            using hmem
        subst hv2
        exact (by decide : ("content-type" : String) ≠ "content-disposition")
      · obtain rfl := Option.some.inj h
        intro hv hmem
        simp [resp500] at hmem
    · obtain rfl := Option.some.inj h
      intro hv hmem
      simp [resp404] at hmem
    · obtain rfl := Option.some.inj h
      intro hv hmem
      simp [resp403] at hmem

/-- Witness for the amended C1 at the concrete text-file request. -/
theorem no_content_disposition_witness :
    ("content-type", "text/plain").fst ≠ "content-disposition" :=
  no_content_disposition_header argsEx exFs "/download/files/a.txt"
    ⟨200, [("content-type", "text/plain")], [104, 101, 108, 108, 111]⟩ rfl
    ("content-type", "text/plain") (by decide)

/-- C6 counterexample: handling one concrete request through the app
main builds emits the Logger middleware's access-log record, so request
handling is not log-free. -/
theorem request_log_nonempty_cex :
    requestLogLines (app argsEx) "/download/files/a.txt" = ["GET /download/files/a.txt"] := by
  rfl

/-- C6 amended: handling one request writes exactly one access-log
record, the installed Logger middleware's, and startup's print_args
prints its six argument lines to the console; the model has no other
output channel and no persisted state. -/
theorem request_output_is_logger (a : Args) (url : String) :
    requestLogLines (app a) url = [accessLog url] ∧ (print_args a).length = 6 :=
  ⟨rfl, rfl⟩

/-- Updating the binding of a present key makes lookup return the new
value. -/
theorem childLookup_update (cs : List (String × FsNode)) (k : String) (v c : FsNode)
    (h : childLookup cs k = some c) : childLookup (childUpdate cs k v) k = some v := by
  induction cs with
  | nil => cases h
  | cons kv rest ih =>
    simp only [childLookup] at h
    simp only [childUpdate, List.map_cons]
    by_cases hk : kv.fst = k
    · simp [childLookup, hk]
    · rw [if_neg hk] at h
      rw [if_neg hk]
      simp only [childLookup, if_neg hk]
      have := ih h
      simpa [childUpdate] using this

/-- Appending a binding for an absent key makes lookup return it. -/
theorem childLookup_append (cs : List (String × FsNode)) (k : String) (v : FsNode)
    (h : childLookup cs k = none) : childLookup (cs ++ [(k, v)]) k = some v := by
  induction cs with
  | nil => simp [childLookup]
  | cons kv rest ih =>
    by_cases hk : kv.fst = k
    · simp [childLookup, hk] at h
    · simp only [childLookup, if_neg hk, List.cons_append] at h ⊢
      exact ih h

/-- Shape agreement is reflexive. -/
theorem shapeEq_refl : ∀ n : FsNode, shapeEq n n
  | FsNode.file _ => rfl
  | FsNode.dir _ => True.intro
  | FsNode.symlink _ _ => ⟨rfl, rfl⟩
  | FsNode.special => True.intro

/-- Shape agreement is transitive. -/
theorem shapeEq_trans (a b c : FsNode) (hab : shapeEq a b) (hbc : shapeEq b c) :
    shapeEq a c := by
  cases a <;> cases b <;> cases c <;>
    first
      | exact hab.elim
      | exact hbc.elim
      | exact True.intro
      | exact hab.trans hbc
      | exact ⟨hab.1.trans hbc.1, hab.2.trans hbc.2⟩

/-- A successful child lookup is unchanged by appending bindings. -/
theorem childLookup_append_left (cs l : List (String × FsNode)) (k : String) (c : FsNode)
    (h : childLookup cs k = some c) : childLookup (cs ++ l) k = some c := by
  induction cs with
  | nil => cases h
  | cons kv rest ih =>
    simp only [childLookup, List.cons_append] at h ⊢
    by_cases hk : kv.fst = k
    · rw [if_pos hk] at h
      rw [if_pos hk]
      exact h
    · rw [if_neg hk] at h
      rw [if_neg hk]
      exact ih h

/-- Updating one key leaves lookups of other keys unchanged. -/
theorem childLookup_update_ne (cs : List (String × FsNode)) (k k2 : String) (v : FsNode)
    (h : k2 ≠ k) : childLookup (childUpdate cs k v) k2 = childLookup cs k2 := by
  induction cs with
  | nil => rfl
  | cons kv rest ih =>
    simp only [childUpdate, List.map_cons] at ih ⊢
    by_cases hk : kv.fst = k
    · rw [if_pos hk]
      simp only [childLookup]
      rw [if_neg (fun hh => h hh.symm), if_neg (fun hh => h ((hk.symm.trans hh).symm))]
      exact ih
    · rw [if_neg hk]
      simp only [childLookup]
      by_cases hk2 : kv.fst = k2
      · rw [if_pos hk2, if_pos hk2]
      · rw [if_neg hk2, if_neg hk2]
        exact ih

/-- Whatever exists at d ++ [s] sits inside a directory at d. -/
theorem lookupPath_parent : ∀ (d : List String) (s : String) (fs n : FsNode),
    lookupPath (d ++ [s]) fs = some n → ∃ cs, lookupPath d fs = some (FsNode.dir cs)
  | [], s, fs, n => by
    intro h
    cases fs with
    | dir cs => exact ⟨cs, rfl⟩
    | file bs => cases h
    | symlink tgt isAbs => cases h
    | special => cases h
  | s0 :: d2, s, fs, n => by
    intro h
    cases fs with
    | dir cs =>
      simp only [List.cons_append, lookupPath] at h ⊢
      split at h
      next c hcl =>
        obtain ⟨cs2, hcs2⟩ := lookupPath_parent d2 s c n h
        exact ⟨cs2, hcs2⟩
      next hcl => cases h
    | file bs => cases h
    | symlink tgt isAbs => cases h
    | special => cases h

/-- With a directory root, the parent path of a directory path is again
a directory path. -/
theorem dirAt_dropLast (fs : FsNode) (d : List String)
    (hroot : ∃ rcs, fs = FsNode.dir rcs)
    (hd : ∃ cs, lookupPath d fs = some (FsNode.dir cs)) :
    ∃ cs2, lookupPath d.dropLast fs = some (FsNode.dir cs2) := by
  rcases eq_or_ne d [] with hnil | hne
  · subst hnil
    obtain ⟨rcs, rfl⟩ := hroot
    exact ⟨rcs, rfl⟩
  · obtain ⟨cs, hcs⟩ := hd
    have hsplit : d.dropLast ++ [d.getLast hne] = d := List.dropLast_append_getLast hne
    rw [← hsplit] at hcs
    exact lookupPath_parent d.dropLast (d.getLast hne) fs (FsNode.dir cs) hcs

/-- A successful insert keeps the root of the tree a directory. -/
theorem insertEmptyDir_root_dir : ∀ (d : List String) (s : String) (fs fsI : FsNode),
    insertEmptyDir d s fs = some fsI → ∃ rcs2, fsI = FsNode.dir rcs2 := by
  intro d s fs fsI h
  cases d with
  | nil =>
    cases fs with
    | dir cs =>
      obtain rfl := Option.some.inj h
      exact ⟨_, rfl⟩
    | file bs => cases h
    | symlink tgt isAbs => cases h
    | special => cases h
  | cons s0 d2 =>
    cases fs with
    | dir cs =>
      simp only [insertEmptyDir] at h
      split at h
      next c hcl =>
        cases hrec : insertEmptyDir d2 s c with
        | none =>
          rw [hrec] at h
          cases h
        | some c2 =>
          rw [hrec] at h
          simp only [Option.map_some'] at h
          obtain rfl := Option.some.inj h
          exact ⟨_, rfl⟩
      next => cases h
    | file bs => cases h
    | symlink tgt isAbs => cases h
    | special => cases h

/-- Inserting a fresh directory preserves every existing lookup up to
shape: the node found at any pre-existing path keeps its kind and
payload, only directory child lists may grow. -/
theorem insertEmptyDir_preserves : ∀ (d : List String) (s : String) (fs fsI : FsNode),
    insertEmptyDir d s fs = some fsI →
    ∀ (q : List String) (n : FsNode), lookupPath q fs = some n →
      ∃ n2, lookupPath q fsI = some n2 ∧ shapeEq n n2 := by
  intro d
  induction d with
  | nil =>
    intro s fs fsI h q n hq
    cases fs with
    | dir cs =>
      obtain rfl := Option.some.inj h
      cases q with
      | nil =>
        obtain rfl := Option.some.inj hq
        exact ⟨_, rfl, True.intro⟩
      | cons s1 q1 =>
        simp only [lookupPath] at hq ⊢
        split at hq
        next c hcl =>
          refine ⟨n, ?_, shapeEq_refl n⟩
          rw [childLookup_append_left cs [(s, FsNode.dir [])] s1 c hcl]
          exact hq
        next hcl => cases hq
    | file bs => cases h
    | symlink tgt isAbs => cases h
    | special => cases h
  | cons s0 d2 ih =>
    intro s fs fsI h q n hq
    cases fs with
    | dir cs =>
      simp only [insertEmptyDir] at h
      split at h
      next c0 hcl0 =>
        cases hrec : insertEmptyDir d2 s c0 with
        | none =>
          rw [hrec] at h
          cases h
        | some c0I =>
          rw [hrec] at h
          simp only [Option.map_some'] at h
          obtain rfl := Option.some.inj h
          cases q with
          | nil =>
            obtain rfl := Option.some.inj hq
            exact ⟨_, rfl, True.intro⟩
          | cons s1 q1 =>
            simp only [lookupPath] at hq ⊢
            by_cases hs : s1 = s0
            · subst hs
              split at hq
              next c hcl =>
                have hc : c = c0 := by
                  rw [hcl0] at hcl
                  exact (Option.some.inj hcl).symm
                subst hc
                obtain ⟨n2, hn2, hsh⟩ := ih s c c0I hrec q1 n hq
                refine ⟨n2, ?_, hsh⟩
                rw [childLookup_update cs s1 c0I c hcl0]
                exact hn2
              next hcl => cases hq
            · rw [childLookup_update_ne cs s0 s1 c0I hs]
              exact ⟨n, hq, shapeEq_refl n⟩
      next hcl0 => cases h
    | file bs => cases h
    | symlink tgt isAbs => cases h
    | special => cases h

/-- Inserting a fresh directory under d, where nothing named s existed,
leaves an empty directory at d ++ [s]. -/
theorem insertEmptyDir_spec : ∀ (d : List String) (s : String) (fs fsI : FsNode),
    insertEmptyDir d s fs = some fsI → lookupPath (d ++ [s]) fs = none →
    lookupPath (d ++ [s]) fsI = some (FsNode.dir []) := by
  intro d
  induction d with
  | nil =>
    intro s fs fsI h hnone
    cases fs with
    | dir cs =>
      obtain rfl := Option.some.inj h
      simp only [List.nil_append, lookupPath] at hnone ⊢
      cases hcl : childLookup cs s with
      | some c =>
        rw [hcl] at hnone
        cases hnone
      | none =>
        rw [childLookup_append cs s (FsNode.dir []) hcl]
    | file bs => cases h
    | symlink tgt isAbs => cases h
    | special => cases h
  | cons s0 d2 ih =>
    intro s fs fsI h hnone
    cases fs with
    | dir cs =>
      simp only [insertEmptyDir] at h
      split at h
      next c0 hcl0 =>
        cases hrec : insertEmptyDir d2 s c0 with
        | none =>
          rw [hrec] at h
          cases h
        | some c0I =>
          rw [hrec] at h
          simp only [Option.map_some'] at h
          obtain rfl := Option.some.inj h
          simp only [List.cons_append, lookupPath] at hnone ⊢
          rw [hcl0] at hnone
          rw [childLookup_update cs s0 c0I c0 hcl0]
          exact ih s c0 c0I hrec hnone
      next hcl0 => cases h
    | file bs => cases h
    | symlink tgt isAbs => cases h
    | special => cases h

/-- create_dir_all only inserts fresh directories, so every lookup that
succeeded before keeps succeeding with the same node shape. -/
theorem create_dir_all_preserves :
    ∀ (fuel : Nat) (todo done : List String) (fs fs2 : FsNode),
      create_dir_all fuel done todo fs = some fs2 →
      ∀ (q : List String) (n : FsNode), lookupPath q fs = some n →
        ∃ n2, lookupPath q fs2 = some n2 ∧ shapeEq n n2 := by
  intro fuel
  induction fuel with
  | zero =>
    intro todo done fs fs2 h q n hq
    cases todo with
    | nil =>
      obtain rfl := Option.some.inj h
      exact ⟨n, hq, shapeEq_refl n⟩
    | cons seg rest => cases h
  | succ f ih =>
    intro todo done fs fs2 h q n hq
    cases todo with
    | nil =>
      obtain rfl := Option.some.inj h
      exact ⟨n, hq, shapeEq_refl n⟩
    | cons seg rest =>
      simp only [create_dir_all] at h
      by_cases h1 : seg = "." ∨ seg = ""
      · rw [if_pos h1] at h
        exact ih rest done fs fs2 h q n hq
      · rw [if_neg h1] at h
        by_cases h2 : seg = ".."
        · rw [if_pos h2] at h
          exact ih rest done.dropLast fs fs2 h q n hq
        · rw [if_neg h2] at h
          split at h
          · split at h
            next fsI hins =>
              obtain ⟨n1, hn1, hs1⟩ := insertEmptyDir_preserves done seg fs fsI hins q n hq
              obtain ⟨n2, hn2, hs2⟩ := ih rest (done ++ [seg]) fsI fs2 h q n1 hn1
              exact ⟨n2, hn2, shapeEq_trans n n1 n2 hs1 hs2⟩
            next => cases h
          · split at h
            · split at h
              · exact ih _ _ fs fs2 h q n hq
              · exact ih _ _ fs fs2 h q n hq
            · cases h
          · exact ih rest (done ++ [seg]) fs fs2 h q n hq
          · cases h

/-- When create_dir_all succeeds, the requested path canonicalises in
the resulting tree to an existing directory. -/
theorem create_dir_all_canon :
    ∀ (fuel : Nat) (todo done : List String) (fs fs2 : FsNode),
      create_dir_all fuel done todo fs = some fs2 →
      (∃ rcs, fs = FsNode.dir rcs) →
      (∃ cs, lookupPath done fs = some (FsNode.dir cs)) →
      ∃ q, canon fs2 fuel done todo = CanonResult.ok q ∧
        ∃ cs2, lookupPath q fs2 = some (FsNode.dir cs2) := by
  intro fuel
  induction fuel with
  | zero =>
    intro todo done fs fs2 h hroot hdone
    cases todo with
    | nil =>
      obtain rfl := Option.some.inj h
      exact ⟨done, rfl, hdone⟩
    | cons seg rest => cases h
  | succ f ih =>
    intro todo done fs fs2 h hroot hdone
    cases todo with
    | nil =>
      obtain rfl := Option.some.inj h
      exact ⟨done, rfl, hdone⟩
    | cons seg rest =>
      simp only [create_dir_all] at h
      by_cases h1 : seg = "." ∨ seg = ""
      · rw [if_pos h1] at h
        obtain ⟨q, hq, hdq⟩ := ih rest done fs fs2 h hroot hdone
        refine ⟨q, ?_, hdq⟩
        simp only [canon]
        rw [if_pos h1]
        exact hq
      · rw [if_neg h1] at h
        by_cases h2 : seg = ".."
        · rw [if_pos h2] at h
          obtain ⟨q, hq, hdq⟩ :=
            ih rest done.dropLast fs fs2 h hroot (dirAt_dropLast fs done hroot hdone)
          refine ⟨q, ?_, hdq⟩
          simp only [canon]
          rw [if_neg h1, if_pos h2]
          exact hq
        · rw [if_neg h2] at h
          split at h
          next hlk =>
            split at h
            next fsI hins =>
              have hrootI := insertEmptyDir_root_dir done seg fs fsI hins
              have hspec := insertEmptyDir_spec done seg fs fsI hins hlk
              obtain ⟨q, hq, hdq⟩ := ih rest (done ++ [seg]) fsI fs2 h hrootI ⟨[], hspec⟩
              refine ⟨q, ?_, hdq⟩
              simp only [canon]
              rw [if_neg h1, if_neg h2]
              obtain ⟨n2, hn2, hs2⟩ :=
                create_dir_all_preserves f rest (done ++ [seg]) fsI fs2 h
                  (done ++ [seg]) (FsNode.dir []) hspec
              cases n2 with
              | dir cs2 =>
                rw [hn2]
                exact hq
              | file bs => exact False.elim hs2
              | symlink tgt isAbs => exact False.elim hs2
              | special => exact False.elim hs2
            next => cases h
          next tgt isAbs hlk =>
            split at h
            · cases isAbs with
              | true =>
                rw [if_pos rfl] at h
                have hdone0 : ∃ cs, lookupPath ([] : List String) fs = some (FsNode.dir cs) := by
                  obtain ⟨rcs, hrfl⟩ := hroot
                  subst hrfl
                  exact ⟨rcs, rfl⟩
                obtain ⟨q, hq, hdq⟩ := ih (tgt ++ rest) [] fs fs2 h hroot hdone0
                refine ⟨q, ?_, hdq⟩
                simp only [canon]
                rw [if_neg h1, if_neg h2]
                obtain ⟨n2, hn2, hs2⟩ :=
                  create_dir_all_preserves f (tgt ++ rest) [] fs fs2 h
                    (done ++ [seg]) (FsNode.symlink tgt true) hlk
                cases n2 with
                | symlink tgt2 isAbs2 =>
                  have hs3 : tgt = tgt2 ∧ true = isAbs2 := hs2
                  obtain ⟨ht, ha⟩ := hs3
                  subst ht
                  subst ha
                  rw [hn2]
                  exact hq
                | file bs => exact False.elim hs2
                | dir cs2 => exact False.elim hs2
                | special => exact False.elim hs2
              | false =>
                rw [if_neg Bool.false_ne_true] at h
                obtain ⟨q, hq, hdq⟩ := ih (tgt ++ rest) done fs fs2 h hroot hdone
                refine ⟨q, ?_, hdq⟩
                simp only [canon]
                rw [if_neg h1, if_neg h2]
                obtain ⟨n2, hn2, hs2⟩ :=
                  create_dir_all_preserves f (tgt ++ rest) done fs fs2 h
                    (done ++ [seg]) (FsNode.symlink tgt false) hlk
                cases n2 with
                | symlink tgt2 isAbs2 =>
                  have hs3 : tgt = tgt2 ∧ false = isAbs2 := hs2
                  obtain ⟨ht, ha⟩ := hs3
                  subst ht
                  subst ha
                  rw [hn2]
                  exact hq
                | file bs => exact False.elim hs2
                | dir cs2 => exact False.elim hs2
                | special => exact False.elim hs2
            · cases h
          next cs1 hlk =>
            obtain ⟨q, hq, hdq⟩ := ih rest (done ++ [seg]) fs fs2 h hroot ⟨cs1, hlk⟩
            refine ⟨q, ?_, hdq⟩
            simp only [canon]
            rw [if_neg h1, if_neg h2]
            obtain ⟨n2, hn2, hs2⟩ :=
              create_dir_all_preserves f rest (done ++ [seg]) fs fs2 h
                (done ++ [seg]) (FsNode.dir cs1) hlk
            cases n2 with
            | dir cs2 =>
              rw [hn2]
              exact hq
            | file bs => exact False.elim hs2
            | symlink tgt isAbs => exact False.elim hs2
            | special => exact False.elim hs2
          next => cases h

/-- C2: resolution never leaves the root: every resolved Directory or
File target extends the canonical root path, and any request whose
decoded path contains a dot-dot segment is Forbidden, whatever
percent-encoding hides it and whatever symlinks exist in the tree. -/
theorem resolve_stays_in_root (fs : FsNode) (root : List String) (req : String) :
    (∀ p, (resolve fs root req = ResolvedTarget.Directory p ∨
           resolve fs root req = ResolvedTarget.File p) →
       ∃ cr, canon fs canonFuel [] root = CanonResult.ok cr ∧ cr <+: p) ∧
    (∀ d, percentDecode req = some d → ".." ∈ segsOf d →
       resolve fs root req = ResolvedTarget.Forbidden) := by
  constructor
  · intro p hp
    unfold resolve at hp
    split at hp
    · rcases hp with h | h <;> cases h
    next d hdec =>
      by_cases hdd : ".." ∈ segsOf d
      · rw [if_pos hdd] at hp
        rcases hp with h | h <;> cases h
      · rw [if_neg hdd] at hp
        split at hp
        next cr hcr =>
          split at hp
          next cp hcp =>
            by_cases hpre : cr.isPrefixOf cp = true
            · rw [if_pos hpre] at hp
              have hpre2 : cr <+: cp := List.isPrefixOf_iff_prefix.mp hpre
              split at hp
              · rcases hp with h | h <;> cases h
                exact ⟨cr, hcr, hpre2⟩
              · rcases hp with h | h <;> cases h
                exact ⟨cr, hcr, hpre2⟩
              · rcases hp with h | h <;> cases h
            · rw [if_neg hpre] at hp
              rcases hp with h | h <;> cases h
          next => rcases hp with h | h <;> cases h
          next => rcases hp with h | h <;> cases h
        next => rcases hp with h | h <;> cases h
  · intro d hdec hdd
    unfold resolve
    split
    · rfl
    next d2 hdec2 =>
      rw [hdec] at hdec2
      obtain rfl := Option.some.inj hdec2
      rw [if_pos hdd]

/-- Witness for C2: an encoded dot-dot escape attempt is Forbidden, and
the canonical root prefixes a concretely resolved directory. -/
theorem resolve_stays_in_root_witness :
    resolve exFs ["files"] "%2e%2e/secret" = ResolvedTarget.Forbidden ∧
    ["files"] <+: ["files", "sub"] := by
  constructor
  · exact (resolve_stays_in_root exFs ["files"] "%2e%2e/secret").2 "../secret" rfl (by decide)
  · obtain ⟨cr, hcr, hpre⟩ :=
      (resolve_stays_in_root exFs ["files"] "sub").1 ["files", "sub"] (Or.inl rfl)
    have h2 : CanonResult.ok cr = CanonResult.ok ["files"] :=
      hcr.symm.trans (rfl : canon exFs canonFuel [] ["files"] = CanonResult.ok ["files"])
    injection h2 with h3
    subst h3
    exact hpre

/-- C3: under the configured prefix the response is determined by the
resolved target: 200 with an HTML listing body for a directory, 200
carrying the file bytes for a regular file, the fixed 404 response for a
missing path, and the fixed, target-independent 403 response for a
forbidden one, revealing nothing about what lies outside the root. -/
theorem dispatch_status_by_target (a : Args) (fs : FsNode) (url rel : String)
    (hstrip : stripMount (appService a).mount_path url = some rel) :
    (∀ p, resolve fs (segsOf (appService a).directory) rel = ResolvedTarget.Directory p →
       handle fs (appService a) url =
         some ⟨200, [("content-type", "text/html")],
           strToBytes (renderListing (appService a).mount_path p (list fs p))⟩) ∧
    (∀ p bs, resolve fs (segsOf (appService a).directory) rel = ResolvedTarget.File p →
       lookupPath p fs = some (FsNode.file bs) →
       handle fs (appService a) url = some ⟨200, fileHeaders (appService a) (lastName p), bs⟩) ∧
    (resolve fs (segsOf (appService a).directory) rel = ResolvedTarget.NotFound →
       handle fs (appService a) url = some resp404) ∧
    (resolve fs (segsOf (appService a).directory) rel = ResolvedTarget.Forbidden →
       handle fs (appService a) url = some resp403) := by
  refine ⟨?_, ?_, ?_, ?_⟩
  · intro p hres
    simp only [handle, hstrip, hres, show (appService a).show_index = true from rfl, if_true]
  · intro p bs hres hfile
    simp only [handle, hstrip, hres, hfile]
  · intro hres
    simp only [handle, hstrip, hres]
  · intro hres
    simp only [handle, hstrip, hres]

/-- Witness for C3: a missing path under the prefix yields the 404
response. -/
theorem dispatch_status_witness :
    handle exFs (appService argsEx) "/download/files/missing.txt" = some resp404 :=
  (dispatch_status_by_target argsEx exFs "/download/files/missing.txt" "/missing.txt"
    rfl).2.2.1 rfl

/-- The listing entry of a child keeps the child's name. -/
theorem classify_name (fs : FsNode) (p : List String) (c : String × FsNode) (e : Entry)
    (h : classify fs p c = some e) : e.name = c.fst := by
  unfold classify at h
  split at h
  next q hq =>
    split at h
    · obtain rfl := Option.some.inj h
      rfl
    · obtain rfl := Option.some.inj h
      rfl
    · cases h
  next => cases h

/-- When every child classifies, the entry names are exactly the child
names in order. -/
theorem filterMap_classify_names (fs : FsNode) (p : List String) :
    ∀ cs : List (String × FsNode), (∀ c ∈ cs, (classify fs p c).isSome = true) →
      (cs.filterMap (classify fs p)).map Entry.name = cs.map Prod.fst
  | [], _ => rfl
  | c :: rest, hall => by
    have hc := hall c (List.mem_cons_self c rest)
    cases he : classify fs p c with
    | none =>
      rw [he] at hc
      cases hc
    | some e =>
      have htail := filterMap_classify_names fs p rest
        (fun x hx => hall x (List.mem_cons_of_mem c hx))
      simp only [List.filterMap_cons, he, List.map_cons]
      rw [classify_name fs p c e he, htail]

/-- C4: for a path that resolves inside the root to a directory, the
listing holds exactly that directory's immediate children: its entry
names are a permutation of the children's names (so nothing deeper and
nothing extra, and no duplicates when the children are distinct), sorted
lexicographically by name, case-sensitively. -/
theorem listing_exact_sorted (fs : FsNode) (root : List String) (req : String)
    (p : List String) (cs : List (String × FsNode))
    (hres : resolve fs root req = ResolvedTarget.Directory p)
    (hdir : lookupPath p fs = some (FsNode.dir cs))
    (hclass : ∀ c ∈ cs, (classify fs p c).isSome = true) :
    ((list fs p).map Entry.name).Perm (cs.map Prod.fst) ∧
    List.Sorted entryLe (list fs p) ∧
    ((cs.map Prod.fst).Nodup → ((list fs p).map Entry.name).Nodup) := by
  have hlist : list fs p = List.insertionSort entryLe (cs.filterMap (classify fs p)) := by
    simp only [list, hdir]
  have hperm0 :
      (List.insertionSort entryLe (cs.filterMap (classify fs p))).Perm
        (cs.filterMap (classify fs p)) :=
    List.perm_insertionSort entryLe _
  have hnames := filterMap_classify_names fs p cs hclass
  have hpermN : ((list fs p).map Entry.name).Perm (cs.map Prod.fst) := by
    rw [hlist, ← hnames]
    exact hperm0.map Entry.name
  refine ⟨hpermN, ?_, ?_⟩
  · rw [hlist]
    exact List.sorted_insertionSort entryLe _
  · intro hnd
    exact hpermN.nodup_iff.mpr hnd

/-- Witness for C4 at the concrete root listing. -/
theorem listing_exact_sorted_witness :
    ((list exFs ["files"]).map Entry.name).Perm ["a.txt", "sub"] ∧
    List.Sorted entryLe (list exFs ["files"]) ∧
    (["a.txt", "sub"].Nodup → ((list exFs ["files"]).map Entry.name).Nodup) :=
  listing_exact_sorted exFs ["files"] "" ["files"]
    [("a.txt", FsNode.file [104, 101, 108, 108, 111]), ("sub", FsNode.dir [])]
    rfl rfl (by
      intro c hc
      cases hc with
      | head => rfl
      | tail _ hc2 =>
        cases hc2 with
        | head => rfl
        | tail _ hc3 => cases hc3)

/-- C5: for a path that resolves inside the root to a regular file, the
response body is the file's exact byte content, in full, whatever the
extension and content type. -/
theorem stream_exact_bytes (a : Args) (fs : FsNode) (url rel : String)
    (p : List String) (bs : List Nat)
    (hstrip : stripMount (appService a).mount_path url = some rel)
    (hres : resolve fs (segsOf (appService a).directory) rel = ResolvedTarget.File p)
    (hfile : lookupPath p fs = some (FsNode.file bs)) :
    handle fs (appService a) url = some ⟨200, fileHeaders (appService a) (lastName p), bs⟩ := by
  simp only [handle, hstrip, hres, hfile]

/-- Witness for C5 at the concrete 5-byte file. -/
theorem stream_exact_bytes_witness :
    handle exFs (appService argsEx) "/download/files/a.txt" =
      some ⟨200, fileHeaders (appService argsEx) (lastName ["files", "a.txt"]),
        [104, 101, 108, 108, 111]⟩ :=
  stream_exact_bytes argsEx exFs "/download/files/a.txt" "/a.txt" ["files", "a.txt"]
    [104, 101, 108, 108, 111] rfl rfl rfl

/-- C8 counterexample: with a regular file occupying the configured
path, Path::exists() is true, so startup completes leaving the
filesystem unchanged, yet no directory exists there: the server starts
serving although the root directory was never created. -/
theorem startup_file_blocks_cex :
    startup (FsNode.dir [("files", FsNode.file [])]) ["files"] =
        some (FsNode.dir [("files", FsNode.file [])]) ∧
      dir_exists (FsNode.dir [("files", FsNode.file [])]) ["files"] = false :=
  ⟨rfl, rfl⟩

/-- C8 amended: startup checks Path::exists(), which follows symlinks.
When the configured path resolves to any existing object, startup does
nothing, even when that object is not a directory; when it does not
resolve (missing, or a dangling symlink), startup runs create_dir_all,
whose failure makes main panic, and whenever it succeeds a directory
exists at the configured path, in the follow-symlinks sense of is_dir,
before the server begins serving. -/
theorem startup_spec (fs : FsNode) (p : List String) :
    (path_exists fs p = true → startup fs p = some fs) ∧
    (path_exists fs p = false → startup fs p = create_dir_all canonFuel [] p fs) ∧
    ((∃ rcs, fs = FsNode.dir rcs) →
      ∀ fs2, create_dir_all canonFuel [] p fs = some fs2 → dir_exists fs2 p = true) := by
  refine ⟨?_, ?_, ?_⟩
  · intro hex
    unfold startup
    rw [hex]
    simp
  · intro hex
    unfold startup
    rw [hex]
    simp
  · intro hroot fs2 h
    have hdone : ∃ cs, lookupPath ([] : List String) fs = some (FsNode.dir cs) := by
      obtain ⟨rcs, hrfl⟩ := hroot
      subst hrfl
      exact ⟨rcs, rfl⟩
    obtain ⟨q, hq, cs2, hcs2⟩ := create_dir_all_canon canonFuel p [] fs fs2 h hroot hdone
    have hdir : isDirNode (lookupPath q fs2) = true := by
      rw [hcs2]
      rfl
    simp only [dir_exists]
    rw [hq]
    exact hdir

/-- Witness for the amended C8: the no-op when the path resolves, the
creation branch, and a directory created from an empty root. -/
theorem startup_spec_witness :
    startup exFs ["files"] = some exFs ∧
    startup (FsNode.dir []) ["files"] =
      create_dir_all canonFuel [] ["files"] (FsNode.dir []) ∧
    dir_exists (FsNode.dir [("files", FsNode.dir [])]) ["files"] = true := by
  refine ⟨?_, ?_, ?_⟩
  · exact (startup_spec exFs ["files"]).1 rfl
  · exact (startup_spec (FsNode.dir []) ["files"]).2.1 rfl
  · exact (startup_spec (FsNode.dir []) ["files"]).2.2 ⟨[], rfl⟩
      (FsNode.dir [("files", FsNode.dir [])]) rfl
